import Mathlib

/-!
Shallow embedding of the binary splice engine of `src/apc/adf.py`: the
container codec (`DecompressedAdfFile.save`, `_decompress_adf_file`), the
offset cascade (`_update_non_instance_offsets`, `_update_instance_arrays`),
and the insert/remove splice operations (`add_animals_to_reserve`,
`remove_animals_from_reserve`).

Bytes are modelled as `List Nat`.  Python `bytearray` slice assignment
`data[o:o+k] = v` becomes `data.take o ++ v ++ data.drop (o+k)`, and
`del data[s:e]` becomes `data.take s ++ data.drop e`; both agree with the
Python semantics, including the clamping behaviour past the end of the
buffer.  Offsets that the cascade shifts are `Int`, because the removal
path passes negative deltas.  The helpers `read_u32` / `create_u32` /
`write_value` and the record/profile descriptors live in
`apc/adf_profile.py`, which is not among the sources; those are modelled
from the spec where their doc comments say so.
-/

namespace Apc

/-- Modelled from the spec: `write_value` of the absent `apc/adf_profile.py`
writes `value` into `data` at byte `offset`
(Python `data[offset:offset+len(value)] = value`). -/
def write_value (data value : List Nat) (offset : Nat) : List Nat :=
  data.take offset ++ (value ++ data.drop (offset + value.length))

/-- Modelled from the spec: `read_u32` of the absent `apc/adf_profile.py`
reads a little-endian 32-bit value from the first four bytes. -/
def read_u32 (bs : List Nat) : Nat :=
  bs.getD 0 0 + 256 * bs.getD 1 0 + 65536 * bs.getD 2 0 + 16777216 * bs.getD 3 0

/-- Little-endian byte list of `n % 2^32`. -/
def u32bytes (n : Nat) : List Nat :=
  [n % 256, n / 256 % 256, n / 65536 % 256, n / 16777216 % 256]

/-- Modelled from the spec: `create_u32` of the absent `apc/adf_profile.py`
packs a value as a little-endian 32-bit field. -/
def create_u32 (v : Int) : List Nat :=
  u32bytes (v % 4294967296).toNat

/-- Descriptor of one fixed-stride record array (`AdfArray` of
`apc/adf_profile.py`, with exactly the fields `adf.py` uses).  The three
offsets the cascade shifts are `Int`; the `org` offsets and the two header
field offsets are never shifted by any routine of `adf.py`. -/
structure AdfArray where
  population : Nat
  length : Nat
  header_length_offset : Nat
  header_array_offset : Nat
  array_start_offset : Int
  array_end_offset : Int
  rel_array_start_offset : Int
  array_org_start_offset : Nat
  array_org_end_offset : Nat
  male_cnt : Nat
  female_cnt : Nat
  male_indices : List Nat
  female_indices : List Nat
deriving DecidableEq, Repr, Inhabited

/-- The shift the cascade applies to one affected array descriptor. -/
def cascadeShift (size : Int) (a : AdfArray) : AdfArray :=
  { a with
    array_start_offset := a.array_start_offset + size,
    array_end_offset := a.array_end_offset + size,
    rel_array_start_offset := a.rel_array_start_offset + size }

/-- `_update_instance_arrays` of `adf.py`: walk the descriptor list; every
array lying at or after the pivot's end whose start is nonzero is shifted
by `size`, and its new relative start offset is written back into `data`
at its header pointer offset.  The pivot (`target_array`) is passed by
value, exactly as its fields are only read in the source.  Returns the
updated buffer together with the updated descriptor list (the source
mutates both in place). -/
def _update_instance_arrays (data : List Nat) (animal_arrays : List AdfArray)
    (target_array : AdfArray) (size : Int) : List Nat × List AdfArray :=
  match animal_arrays with
  | [] => (data, [])
  | a :: rest =>
    if a.array_start_offset ≥ target_array.array_end_offset ∧ a.array_start_offset ≠ 0 then
      let a2 := cascadeShift size a
      let data2 := write_value data (create_u32 a2.rel_array_start_offset) a.header_array_offset
      let r := _update_instance_arrays data2 rest target_array size
      (r.1, a2 :: r.2)
    else
      let r := _update_instance_arrays data rest target_array size
      (r.1, a :: r.2)

/-- The spec's description of the cascade's effect on the buffer: for each
shifted array, in list order, the new relative start offset is written
back at that array's header pointer offset; nothing else is written. -/
def spec_cascade_writeback (data : List Nat) (arrays : List AdfArray)
    (target_array : AdfArray) (size : Int) : List Nat :=
  arrays.foldl (fun d a =>
    if a.array_start_offset ≥ target_array.array_end_offset ∧ a.array_start_offset ≠ 0 then
      write_value d (create_u32 (a.rel_array_start_offset + size)) a.header_array_offset
    else d) data

/-- The decompressed payload (`DecompressedAdfFile` of `adf.py`):
`file_header` is the 32-byte outer header, `header` the 5-byte inner
header, `data` the body, and `org_size` the decompressed size recorded at
construction (`len(header + data)`). -/
structure DecompressedAdfFile where
  file_header : List Nat
  header : List Nat
  data : List Nat
  org_size : Nat
deriving DecidableEq, Repr

/-- The outer-header rewrite step of `DecompressedAdfFile.save`: when the
payload size changed, the new decompressed size is packed and written into
bytes `[8:12)` and `[24:28)`; otherwise the header is left alone. -/
def updatedFileHeader (f : DecompressedAdfFile) : List Nat :=
  if f.org_size ≠ (f.header ++ f.data).length then
    write_value (write_value f.file_header (create_u32 ((f.header ++ f.data).length : Int)) 8)
      (create_u32 ((f.header ++ f.data).length : Int)) 24
  else
    f.file_header

/-- `DecompressedAdfFile.save` of `adf.py` minus the filesystem: the
encoded archive is the (possibly rewritten) outer header followed by the
compressed inner header + body.  The compressor is a parameter (zlib is
external to the repository). -/
def saveBytes (f : DecompressedAdfFile) (compress : List Nat → List Nat) : List Nat :=
  updatedFileHeader f ++ compress (f.header ++ f.data)

/-- The error kinds the spec names for the codec and splice engine. -/
inductive AdfError where
  | corruptArchive
  | insufficientSubjects
deriving DecidableEq, Repr

/-- `_decompress_adf_file` of `adf.py` minus the filesystem: split off the
32-byte outer header, inflate the remainder, split off the 5-byte inner
header, and record the body file written to the working directory (the
source writes it only after inflating succeeds).  The inflater is a
parameter returning `Option` (zlib is external and raises on a corrupt
stream); a failed inflation surfaces as `corruptArchive` with no file
written and no payload produced. -/
def _decompress_adf_file (raw : List Nat)
    (decompress : List Nat → Option (List Nat)) :
    Except AdfError DecompressedAdfFile × List (List Nat) :=
  match decompress (raw.drop 32) with
  | none => (Except.error AdfError.corruptArchive, [])
  | some dec =>
    (Except.ok ⟨raw.take 32, dec.take 5, dec.drop 5, (dec.take 5 ++ dec.drop 5).length⟩,
      [dec.drop 5])

/-- Ceiling division: `math.ceil(a / b)` on naturals. -/
def ceil_div (a b : Nat) : Nat := (a + b - 1) / b

/-- One new record to insert (`Animal` of the absent `apc/adf_profile.py`):
its `size` attribute and its serialized fixed-stride form `to_bytes`. -/
structure Animal where
  size : Nat
  to_bytes : List Nat
deriving DecidableEq, Repr, Inhabited

/-- The chunking comprehension of `add_animals_to_reserve`:
`[animals[i:i + n] for i in range(0, len(animals), n)]`; for `n > 0` the
range `range(0, L, n)` has `⌈L/n⌉` elements. -/
def chunksOf (n : Nat) (l : List Animal) : List (List Animal) :=
  (List.range' 0 (ceil_div l.length n) n).map (fun i => (l.drop i).take n)

/-- The chunk size of `add_animals_to_reserve`:
`1 if len(animals) < len(eligible) else ceil(len(animals) / len(eligible))`. -/
def chunk_size (animals : List Animal) (k : Nat) : Nat :=
  if animals.length < k then 1 else ceil_div animals.length k

/-- The chunk list `animal_chunks` of `add_animals_to_reserve` for `k`
eligible arrays. -/
def animal_chunks (animals : List Animal) (k : Nat) : List (List Animal) :=
  chunksOf (chunk_size animals k) animals

/-- The spec's evenness requirement on the chunk partition, read as: any
two chunks differ in size by at most one. -/
def asEvenAsPossible (cs : List (List Animal)) : Prop :=
  ∀ c1 ∈ cs, ∀ c2 ∈ cs, c1.length ≤ c2.length + 1

instance (cs : List (List Animal)) : Decidable (asEvenAsPossible cs) := by
  unfold asEvenAsPossible
  infer_instance

/-- The category selector of `remove_animals_from_reserve` (`gender`). -/
inductive Gender where
  | male
  | female
deriving DecidableEq, Repr

/-- The per-category subject count of an array for a selector. -/
def category_cnt (gender : Gender) (a : AdfArray) : Nat :=
  if gender = Gender.male then a.male_cnt else a.female_cnt

/-- `_insert_animal` of `adf.py`: bump the 4-byte length field at the
array's length-field offset, then splice the serialized record into the
body at the array's original end boundary (`data[e:e] = animal_bytes`). -/
def _insert_animal (data : List Nat) (animal : Animal) (array : AdfArray) : List Nat :=
  let d1 := write_value data
    (create_u32 ((read_u32 ((data.drop array.header_length_offset).take 4) : Int) + 1))
    array.header_length_offset
  d1.take array.array_org_end_offset ++
    (animal.to_bytes ++ d1.drop array.array_org_end_offset)

/-- `_remove_animal` of `adf.py`: decrement the 4-byte length field, then
delete the 32-byte record at stored index `index`, counted from the
array's original start offset. -/
def _remove_animal (data : List Nat) (array : AdfArray) (index : Nat) : List Nat :=
  let d1 := write_value data
    (create_u32 ((read_u32 ((data.drop array.header_length_offset).take 4) : Int) - 1))
    array.header_length_offset
  d1.take (array.array_org_start_offset + index * 32) ++
    d1.drop (array.array_org_start_offset + index * 32 + 32)

/-- The removal loop of `remove_animals_from_reserve` for one planned
`(remove_cnt, array)` entry: `removed_cnt` counts up from zero and each
iteration removes the record at list position `remove_cnt - removed_cnt`
of the category index list, so positions `remove_cnt, remove_cnt - 1, …, 1`
are consumed in that order. -/
def remove_loop (data : List Nat) (array : AdfArray) (remove_indices : List Nat) :
    Nat → List Nat
  | 0 => data
  | k + 1 =>
    remove_loop (_remove_animal data array (remove_indices.getD (k + 1) 0))
      array remove_indices k

/-- The claim's description of the removal selection: consume the category
index list from its tail (highest stored position first) for exactly `cnt`
entries. -/
def spec_tail_remove (data : List Nat) (array : AdfArray)
    (remove_indices : List Nat) (cnt : Nat) : List Nat :=
  (remove_indices.reverse.take cnt).foldl (fun d i => _remove_animal d array i) data

/-- The list positions the source's removal loop actually consumes, in
order: `[cnt, cnt - 1, …, 1]`. -/
def code_selection (cnt : Nat) : List Nat :=
  (List.range cnt).map (fun j => cnt - j)

/-- The contribution of one eligible array to the removal plan: the
category count minus one, capped by the remaining requested amount. -/
def plan_rc (gender : Gender) (a : AdfArray) (left : Nat) : Nat :=
  if (if gender = Gender.male then a.male_cnt - 1 else a.female_cnt - 1) > left then left
  else if gender = Gender.male then a.male_cnt - 1 else a.female_cnt - 1

/-- The planning loop of `remove_animals_from_reserve`: walk the eligible
arrays (as indices into the descriptor list, standing for the object
references the source accumulates) and collect `(remove_cnt, array)`
pairs; an array with more than one record may contribute its category
count minus one, capped by what is still requested; zero contributions are
skipped, and the loop stops once the request is covered.  Returns the plan
and the uncovered remainder. -/
def build_plan (arrays : List AdfArray) (gender : Gender) :
    List Nat → List (Nat × Nat) → Nat → List (Nat × Nat) × Nat
  | [], plan, left => (plan, left)
  | i :: rest, plan, left =>
    if left = 0 then
      (plan, left)
    else if (arrays.getD i default).length > 1 then
      if plan_rc gender (arrays.getD i default) left > 0 then
        build_plan arrays gender rest
          (plan ++ [(plan_rc gender (arrays.getD i default) left, i)])
          (left - plan_rc gender (arrays.getD i default) left)
      else build_plan arrays gender rest plan left
    else build_plan arrays gender rest plan left

/-- The removal plan of one `remove_animals_from_reserve` call, from an
empty accumulator. -/
def remove_plan (arrays : List AdfArray) (gender : Gender)
    (eligibleIdx : List Nat) (animal_cnt : Nat) : List (Nat × Nat) × Nat :=
  build_plan arrays gender eligibleIdx [] animal_cnt

/-- The structural profile (`create_profile` of the absent
`apc/adf_profile.py`), modelled from the spec as an opaque lookup: the
absolute offset and current stored value of each size-dependent field. -/
structure Profile where
  header_instance_offset : Nat
  instance_header_start : Nat
  header_typedef_offset : Nat
  typedef_start : Nat
  header_nametable_offset : Nat
  nametable_start : Nat
  header_total_size_offset : Nat
  total_size : Nat
  instance_size : Nat
deriving DecidableEq, Repr, Inhabited

/-- The `offsets_to_update` table of `_update_non_instance_offsets`:
`(absolute offset, current value)` pairs for the five global size-only
fields (the last is the instance-region size counter at
`instance_header_start + 12`). -/
def offsets_to_update (profile : Profile) : List (Nat × Nat) :=
  [(profile.header_instance_offset, profile.instance_header_start),
   (profile.header_typedef_offset, profile.typedef_start),
   (profile.header_nametable_offset, profile.nametable_start),
   (profile.header_total_size_offset, profile.total_size),
   (profile.instance_header_start + 12, profile.instance_size)]

/-- `_update_non_instance_offsets` of `adf.py`: each listed field gets
`added_size` added to its value and written back at its offset. -/
def _update_non_instance_offsets (data : List Nat) (profile : Profile)
    (added_size : Int) : List Nat :=
  (offsets_to_update profile).foldl
    (fun d off => write_value d (create_u32 ((off.2 : Int) + added_size)) off.1) data

/-- Observable phases of one splice operation: offset-cascade steps
(profile-field updates and per-array re-anchoring), byte-moving splices of
the body, and the final persist of the buffer. -/
inductive SpliceEvent where
  | cascade
  | splice
  | persist
deriving DecidableEq, Repr

/-- The outcome of one splice operation: final body, final descriptors,
the ordered trace of its phases, and the error, if any. -/
structure OpResult where
  body : List Nat
  arrays : List AdfArray
  events : List SpliceEvent
  error : Option AdfError
deriving Repr

/-- `add_animals_to_reserve` of `adf.py` after file loading and
eligibility selection: `eligibleIdx` holds the positions of the eligible
arrays (sorted by descending start offset, as the caller sorts them)
inside `all_arrays`, standing for the object references the source holds.
Empty input is a silent no-op; otherwise the five global fields are
cascaded once, then every chunk record triggers a per-array cascade, then
every chunk record is spliced in, then the buffer is persisted. -/
def add_animals_core (data : List Nat) (profile : Profile)
    (all_arrays : List AdfArray) (eligibleIdx : List Nat)
    (animals : List Animal) : OpResult :=
  if animals.length = 0 then ⟨data, all_arrays, [], none⟩
  else
    let d0 := _update_non_instance_offsets data profile
      ((animals.headD default).size * animals.length : Int)
    let r1 := (animal_chunks animals eligibleIdx.length).enum.foldl
      (fun (st : List Nat × List AdfArray) ci =>
        ci.2.foldl
          (fun (st2 : List Nat × List AdfArray) al =>
            _update_instance_arrays st2.1 st2.2
              (st2.2.getD (eligibleIdx.getD ci.1 0) default) (al.size : Int))
          st)
      (d0, all_arrays)
    let d2 := (animal_chunks animals eligibleIdx.length).enum.foldl
      (fun d ci =>
        ci.2.foldl
          (fun d al => _insert_animal d al (r1.2.getD (eligibleIdx.getD ci.1 0) default))
          d)
      r1.1
    ⟨d2, r1.2,
      SpliceEvent.cascade ::
        (List.replicate (animal_chunks animals eligibleIdx.length).flatten.length
            SpliceEvent.cascade ++
          (List.replicate (animal_chunks animals eligibleIdx.length).flatten.length
              SpliceEvent.splice ++
            [SpliceEvent.persist])),
      none⟩

/-- `remove_animals_from_reserve` of `adf.py` after file loading and
eligibility selection, with `eligibleIdx` as in `add_animals_core`.  A
zero request is a silent no-op; a plan that falls short raises the
insufficient-subjects error before anything is touched; otherwise the
global fields are cascaded once, each plan entry triggers a per-array
cascade, each plan entry's records are deleted, and the buffer is
persisted. -/
def remove_animals_core (data : List Nat) (profile : Profile)
    (all_arrays : List AdfArray) (eligibleIdx : List Nat)
    (gender : Gender) (animal_cnt : Nat) : OpResult :=
  if animal_cnt = 0 then ⟨data, all_arrays, [], none⟩
  else if (remove_plan all_arrays gender eligibleIdx animal_cnt).2 > 0 then
    ⟨data, all_arrays, [], some AdfError.insufficientSubjects⟩
  else
    let d0 := _update_non_instance_offsets data profile (-(32 * animal_cnt : Int))
    let r1 := (remove_plan all_arrays gender eligibleIdx animal_cnt).1.foldl
      (fun (st : List Nat × List AdfArray) e =>
        _update_instance_arrays st.1 st.2 (st.2.getD e.2 default)
          (-((32 : Int) * e.1)))
      (d0, all_arrays)
    let d2 := (remove_plan all_arrays gender eligibleIdx animal_cnt).1.foldl
      (fun d e =>
        remove_loop d (r1.2.getD e.2 default)
          (if gender = Gender.male then (r1.2.getD e.2 default).male_indices
           else (r1.2.getD e.2 default).female_indices)
          e.1)
      r1.1
    ⟨d2, r1.2,
      SpliceEvent.cascade ::
        (List.replicate (remove_plan all_arrays gender eligibleIdx animal_cnt).1.length
            SpliceEvent.cascade ++
          (((remove_plan all_arrays gender eligibleIdx animal_cnt).1.map
              (fun e => List.replicate e.1 SpliceEvent.splice)).flatten ++
            [SpliceEvent.persist])),
      none⟩

/-- Concrete fixture: one 32-byte record. -/
def exAnimal : Animal := ⟨32, List.replicate 32 1⟩

/-- Concrete fixture: seven records, to be spread over three arrays. -/
def exAnimals7 : List Animal := List.replicate 7 exAnimal

/-- Concrete fixture: a 24-byte body. -/
def exData : List Nat := List.replicate 24 0

/-- Concrete fixture: an array of four 32-byte records, all male, with its
4-byte length field at offset 0 and records starting at offset 4. -/
def exRemArray : AdfArray := ⟨5, 4, 0, 0, 4, 132, 4, 4, 132, 4, 0, [0, 1, 2, 3], []⟩

/-- Concrete fixture: the body for `exRemArray` — the length field, then
record `i` filled with byte value `i`. -/
def exRemData : List Nat := [4, 0, 0, 0] ++ (List.range 128).map (fun i => i / 32)

/-- Concrete fixture: an eligible array with three males and two females,
five records in total. -/
def exElig : AdfArray := ⟨5, 5, 0, 0, 4, 164, 4, 4, 164, 3, 2, [0, 1, 2], [3, 4]⟩

/-- Concrete fixture: an eligible array with a single male, which the
planner may never drain. -/
def exShort : AdfArray := ⟨5, 3, 0, 0, 4, 100, 4, 4, 100, 1, 2, [0], [1, 2]⟩

/-- Concrete fixture: a profile whose fields sit at offsets 0..12. -/
def exProfile : Profile := ⟨0, 0, 4, 0, 8, 0, 12, 0, 0⟩

/-- Concrete fixture: a one-record array whose original end boundary is
byte 8 of an 8-byte body. -/
def exInsArray : AdfArray := ⟨1, 1, 0, 0, 4, 8, 4, 4, 8, 1, 0, [0], []⟩

/-- Concrete fixture: the body for `exInsArray`. -/
def exInsData : List Nat := [1, 0, 0, 0, 7, 7, 7, 7]

/-- Concrete fixture: a two-record chunk with distinguishable bytes. -/
def exChunk : List Animal := [⟨2, [50, 51]⟩, ⟨2, [60, 61]⟩]

/-- Concrete fixture: a pivot array occupying `[8, 16)`. -/
def exPivot : AdfArray := ⟨0, 2, 0, 0, 8, 16, 8, 8, 16, 1, 1, [0], [1]⟩

/-- Concrete fixture: an array at `[16, 48)`, after the pivot's end. -/
def exAfter : AdfArray := ⟨1, 1, 4, 4, 16, 48, 16, 16, 48, 1, 0, [0], []⟩

/-- Concrete fixture: a placeholder descriptor with zero start. -/
def exZero : AdfArray := ⟨2, 0, 8, 8, 0, 0, 0, 0, 0, 0, 0, [], []⟩

/-- Concrete fixture: an array at `[4, 8)`, before the pivot's end. -/
def exBefore : AdfArray := ⟨3, 0, 12, 12, 4, 8, 4, 4, 8, 0, 0, [], []⟩

/-- Concrete fixture: a payload whose recorded size matches its content. -/
def exPayload : DecompressedAdfFile :=
  ⟨List.replicate 32 0, [0, 0, 0, 0, 0], [1, 2, 3], 8⟩

/-- Concrete fixture: a payload whose recorded size differs from its
content, as after a size-changing splice. -/
def exPayload2 : DecompressedAdfFile :=
  ⟨List.replicate 32 9, [0, 0, 0, 0, 0], [1, 2, 3], 0⟩

theorem write_value_length (d v : List Nat) (o : Nat) (h : o + v.length ≤ d.length) :
    (write_value d v o).length = d.length := by
  simp only [write_value, List.length_append, List.length_take, List.length_drop]
  omega

theorem update_instance_arrays_snd (data : List Nat) (arrays : List AdfArray)
    (t : AdfArray) (s : Int) :
    (_update_instance_arrays data arrays t s).2 =
      arrays.map (fun a =>
        if a.array_start_offset ≥ t.array_end_offset ∧ a.array_start_offset ≠ 0 then
          cascadeShift s a
        else a) := by
  induction arrays generalizing data with
  | nil => simp [_update_instance_arrays]
  | cons a rest ih =>
    by_cases hc : a.array_start_offset ≥ t.array_end_offset ∧ a.array_start_offset ≠ 0
    · simp [_update_instance_arrays, hc, ih]
    · simp [_update_instance_arrays, hc, ih]

theorem update_instance_arrays_fst (data : List Nat) (arrays : List AdfArray)
    (t : AdfArray) (s : Int) :
    (_update_instance_arrays data arrays t s).1 =
      spec_cascade_writeback data arrays t s := by
  induction arrays generalizing data with
  | nil => simp [_update_instance_arrays, spec_cascade_writeback]
  | cons a rest ih =>
    by_cases hc : a.array_start_offset ≥ t.array_end_offset ∧ a.array_start_offset ≠ 0
    · simp [_update_instance_arrays, spec_cascade_writeback, hc, ih, cascadeShift,
        List.foldl_cons]
    · simp [_update_instance_arrays, spec_cascade_writeback, hc, ih, List.foldl_cons]

theorem update_instance_arrays_fst_length (data : List Nat) (arrays : List AdfArray)
    (t : AdfArray) (s : Int)
    (h : ∀ a ∈ arrays, a.header_array_offset + 4 ≤ data.length) :
    (_update_instance_arrays data arrays t s).1.length = data.length := by
  induction arrays generalizing data with
  | nil => simp [_update_instance_arrays]
  | cons a rest ih =>
    have ha := h a (List.mem_cons_self a rest)
    have hrest : ∀ b ∈ rest, b.header_array_offset + 4 ≤ data.length := by
      intro b hb
      exact h b (List.mem_cons_of_mem a hb)
    by_cases hc : a.array_start_offset ≥ t.array_end_offset ∧ a.array_start_offset ≠ 0
    · have hw : (write_value data (create_u32 ((cascadeShift s a).rel_array_start_offset))
          a.header_array_offset).length = data.length := by
        apply write_value_length
        simpa [create_u32, u32bytes] using ha
      simp only [_update_instance_arrays, if_pos hc]
      rw [ih _ ?_, hw]
      intro b hb
      rw [hw]
      exact hrest b hb
    · simp only [_update_instance_arrays, if_neg hc]
      exact ih data hrest

theorem getD_drop (l : List Nat) (n i : Nat) :
    (l.drop n).getD i 0 = l.getD (n + i) 0 := by
  rw [List.getD_eq_getElem?_getD, List.getD_eq_getElem?_getD, List.getElem?_drop]

theorem getD_take (l : List Nat) (n i : Nat) (h : i < n) :
    (l.take n).getD i 0 = l.getD i 0 := by
  rw [List.getD_eq_getElem?_getD, List.getD_eq_getElem?_getD, List.getElem?_take_of_lt h]

theorem getD_append_lt (l l2 : List Nat) (i : Nat) (h : i < l.length) :
    (l ++ l2).getD i 0 = l.getD i 0 :=
  List.getD_append l l2 0 i h

theorem getD_append_ge (l l2 : List Nat) (i : Nat) (h : l.length ≤ i) :
    (l ++ l2).getD i 0 = l2.getD (i - l.length) 0 :=
  List.getD_append_right l l2 0 i h

theorem write_value_getD (d v : List Nat) (o i : Nat) (hb : o + v.length ≤ d.length) :
    (write_value d v o).getD i 0 =
      if o ≤ i ∧ i < o + v.length then v.getD (i - o) 0 else d.getD i 0 := by
  have hto : (d.take o).length = o := by
    simp only [List.length_take]
    omega
  unfold write_value
  rcases Nat.lt_or_ge i o with h1 | h1
  · rw [if_neg (by omega), getD_append_lt _ _ _ (by rw [hto]; exact h1)]
    exact getD_take d o i h1
  · rw [getD_append_ge _ _ _ (by rw [hto]; exact h1), hto]
    rcases Nat.lt_or_ge i (o + v.length) with h2 | h2
    · rw [if_pos ⟨h1, h2⟩, getD_append_lt _ _ _ (by omega)]
    · rw [if_neg (by omega), getD_append_ge _ _ _ (by omega), getD_drop]
      congr 1
      omega

theorem create_u32_length (v : Int) : (create_u32 v).length = 4 := by
  simp [create_u32, u32bytes]

theorem read_u32_create_u32 (m : Nat) (h : m < 4294967296) :
    read_u32 (create_u32 (m : Int)) = m := by
  simp only [read_u32, create_u32, u32bytes, List.getD_cons_zero, List.getD_cons_succ]
  omega

theorem updatedFileHeader_length (f : DecompressedAdfFile)
    (hfh : f.file_header.length = 32) :
    (updatedFileHeader f).length = 32 := by
  unfold updatedFileHeader
  split
  · rw [write_value_length, write_value_length]
    · exact hfh
    · rw [create_u32_length, hfh]
      omega
    · rw [create_u32_length, write_value_length]
      · omega
      · rw [create_u32_length, hfh]
        omega
  · exact hfh

theorem updatedFileHeader_getD (f : DecompressedAdfFile)
    (hfh : f.file_header.length = 32)
    (hne : f.org_size ≠ (f.header ++ f.data).length) (i : Nat) :
    (updatedFileHeader f).getD i 0 =
      if 8 ≤ i ∧ i < 12 then
        (create_u32 ((f.header ++ f.data).length : Int)).getD (i - 8) 0
      else if 24 ≤ i ∧ i < 28 then
        (create_u32 ((f.header ++ f.data).length : Int)).getD (i - 24) 0
      else f.file_header.getD i 0 := by
  have hv : (create_u32 ((f.header ++ f.data).length : Int)).length = 4 :=
    create_u32_length _
  have h1 : (write_value f.file_header
      (create_u32 ((f.header ++ f.data).length : Int)) 8).length = 32 := by
    rw [write_value_length]
    · exact hfh
    · rw [hv, hfh]
      omega
  unfold updatedFileHeader
  rw [if_pos hne]
  rw [write_value_getD _ _ 24 i (by rw [h1, hv]; omega)]
  rw [write_value_getD _ _ 8 i (by rw [hfh, hv]; omega)]
  rw [hv]
  split_ifs <;> first | rfl | omega

/-- C1: the offset cascade shifts exactly the arrays whose start offset is
at or after the pivot's end and nonzero — adding the delta to their start,
end and relative start offsets and writing the new relative start back to
the body at their header pointer offset — while the (nonempty) pivot and
every array starting before the pivot's end are untouched, and the body
length is unchanged. -/
theorem c1_offset_cascade (data : List Nat) (arrays : List AdfArray)
    (t : AdfArray) (s : Int)
    (hpiv : t.array_start_offset < t.array_end_offset)
    (hoff : ∀ a ∈ arrays, a.header_array_offset + 4 ≤ data.length) :
    (_update_instance_arrays data arrays t s).2 =
        arrays.map (fun a =>
          if a.array_start_offset ≥ t.array_end_offset ∧ a.array_start_offset ≠ 0 then
            cascadeShift s a
          else a)
    ∧ ¬ (t.array_start_offset ≥ t.array_end_offset ∧ t.array_start_offset ≠ 0)
    ∧ (_update_instance_arrays data arrays t s).1 = spec_cascade_writeback data arrays t s
    ∧ (_update_instance_arrays data arrays t s).1.length = data.length := by
  refine ⟨update_instance_arrays_snd data arrays t s, ?_,
    update_instance_arrays_fst data arrays t s,
    update_instance_arrays_fst_length data arrays t s hoff⟩
  intro hcontra
  exact absurd hpiv (not_lt.mpr hcontra.1)

theorem c1_offset_cascade_witness :
    (exPivot.array_start_offset < exPivot.array_end_offset
      ∧ ∀ a ∈ [exPivot, exAfter, exZero, exBefore],
          a.header_array_offset + 4 ≤ exData.length)
    ∧ ((_update_instance_arrays exData [exPivot, exAfter, exZero, exBefore] exPivot 32).2 =
          [exPivot, exAfter, exZero, exBefore].map (fun a =>
            if a.array_start_offset ≥ exPivot.array_end_offset ∧ a.array_start_offset ≠ 0 then
              cascadeShift 32 a
            else a)
      ∧ ¬ (exPivot.array_start_offset ≥ exPivot.array_end_offset
            ∧ exPivot.array_start_offset ≠ 0)
      ∧ (_update_instance_arrays exData [exPivot, exAfter, exZero, exBefore] exPivot 32).1 =
          spec_cascade_writeback exData [exPivot, exAfter, exZero, exBefore] exPivot 32
      ∧ (_update_instance_arrays exData
          [exPivot, exAfter, exZero, exBefore] exPivot 32).1.length = exData.length) :=
  ⟨⟨by decide, by decide⟩,
    c1_offset_cascade exData [exPivot, exAfter, exZero, exBefore] exPivot 32
      (by decide) (by decide)⟩

/-- C2: decoding the result of encoding reproduces a byte-identical inner
header and body: `save` compresses inner header + body behind the 32-byte
outer header, and `_decompress_adf_file` splits off the 32-byte outer
header, inflates the remainder, and splits it into a 5-byte inner header
and the body — given that inflation inverts compression (DEFLATE is
lossless). -/
theorem c2_roundtrip (f : DecompressedAdfFile)
    (compress : List Nat → List Nat) (decompress : List Nat → Option (List Nat))
    (hcd : ∀ x, decompress (compress x) = some x)
    (hfh : f.file_header.length = 32) (hh : f.header.length = 5) :
    ∃ g : DecompressedAdfFile,
      (_decompress_adf_file (saveBytes f compress) decompress).1 = Except.ok g
      ∧ g.header = f.header ∧ g.data = f.data := by
  have hufl := updatedFileHeader_length f hfh
  have hdrop : (saveBytes f compress).drop 32 = compress (f.header ++ f.data) :=
    List.drop_left' hufl
  refine ⟨⟨(saveBytes f compress).take 32, f.header, f.data,
    (f.header ++ f.data).length⟩, ?_, rfl, rfl⟩
  unfold _decompress_adf_file
  rw [hdrop, hcd]
  simp [List.take_left' hh, List.drop_left' hh]

theorem c2_roundtrip_witness :
    ((∀ x : List Nat, (some x : Option (List Nat)) = some x)
      ∧ exPayload.file_header.length = 32 ∧ exPayload.header.length = 5)
    ∧ ∃ g : DecompressedAdfFile,
        (_decompress_adf_file (saveBytes exPayload (fun l => l))
          (fun l => some l)).1 = Except.ok g
        ∧ g.header = exPayload.header ∧ g.data = exPayload.data :=
  ⟨⟨fun _ => rfl, by decide, by decide⟩,
    c2_roundtrip exPayload (fun l => l) (fun l => some l) (fun _ => rfl)
      (by decide) (by decide)⟩

/-- C3: after a size-changing splice, the saved archive's two redundant
outer-header size fields at `[8:12)` and `[24:28)` both hold
`len(inner_header) + len(body)` of the saved payload, no other
outer-header byte is modified by encoding, and the archive's first 32
bytes are exactly the rewritten outer header. -/
theorem c3_size_fields (f : DecompressedAdfFile) (compress : List Nat → List Nat)
    (hfh : f.file_header.length = 32)
    (hne : f.org_size ≠ (f.header ++ f.data).length)
    (hsz : f.header.length + f.data.length < 4294967296) :
    read_u32 ((saveBytes f compress).drop 8) = f.header.length + f.data.length
    ∧ read_u32 ((saveBytes f compress).drop 24) = f.header.length + f.data.length
    ∧ (∀ i, i < 32 → ¬ (8 ≤ i ∧ i < 12) → ¬ (24 ≤ i ∧ i < 28) →
        (saveBytes f compress).getD i 0 = f.file_header.getD i 0)
    ∧ (saveBytes f compress).take 32 = updatedFileHeader f := by
  have hufl := updatedFileHeader_length f hfh
  have hlen : (f.header ++ f.data).length = f.header.length + f.data.length :=
    List.length_append f.header f.data
  have hsave : ∀ i, i < 32 →
      (saveBytes f compress).getD i 0 = (updatedFileHeader f).getD i 0 := by
    intro i hi
    exact getD_append_lt _ _ _ (by rw [hufl]; exact hi)
  have hread := read_u32_create_u32 ((f.header ++ f.data).length) (by omega)
  have hfield : ∀ o, o = 8 ∨ o = 24 →
      read_u32 ((saveBytes f compress).drop o) = f.header.length + f.data.length := by
    intro o ho
    have he : ∀ j, j < 4 → ((saveBytes f compress).drop o).getD j 0 =
        (create_u32 ((f.header ++ f.data).length : Int)).getD j 0 := by
      intro j hj
      rw [getD_drop, hsave (o + j) (by omega),
        updatedFileHeader_getD f hfh hne (o + j)]
      rcases ho with rfl | rfl
      · rw [if_pos ⟨by omega, by omega⟩]
        congr 1
        omega
      · rw [if_neg (by omega), if_pos ⟨by omega, by omega⟩]
        congr 1
        omega
    simp only [read_u32] at hread ⊢
    rw [he 0 (by omega), he 1 (by omega), he 2 (by omega), he 3 (by omega)]
    omega
  refine ⟨hfield 8 (Or.inl rfl), hfield 24 (Or.inr rfl), ?_, List.take_left' hufl⟩
  intro i hi h8 h24
  rw [hsave i hi, updatedFileHeader_getD f hfh hne i, if_neg h8, if_neg h24]

theorem c3_size_fields_witness :
    (exPayload2.file_header.length = 32
      ∧ exPayload2.org_size ≠ (exPayload2.header ++ exPayload2.data).length
      ∧ exPayload2.header.length + exPayload2.data.length < 4294967296)
    ∧ (read_u32 ((saveBytes exPayload2 (fun l => l)).drop 8) =
          exPayload2.header.length + exPayload2.data.length
      ∧ read_u32 ((saveBytes exPayload2 (fun l => l)).drop 24) =
          exPayload2.header.length + exPayload2.data.length
      ∧ (∀ i, i < 32 → ¬ (8 ≤ i ∧ i < 12) → ¬ (24 ≤ i ∧ i < 28) →
          (saveBytes exPayload2 (fun l => l)).getD i 0 =
            exPayload2.file_header.getD i 0)
      ∧ (saveBytes exPayload2 (fun l => l)).take 32 = updatedFileHeader exPayload2) :=
  ⟨⟨by decide, by decide, by decide⟩,
    c3_size_fields exPayload2 (fun l => l) (by decide) (by decide) (by decide)⟩

/-- C9: when inflation of the compressed remainder fails, decoding fails
with the corrupt-archive error, produces no partial payload, and writes no
file. -/
theorem c9_corrupt_archive (raw : List Nat)
    (decompress : List Nat → Option (List Nat))
    (hfail : decompress (raw.drop 32) = none) :
    _decompress_adf_file raw decompress =
      (Except.error AdfError.corruptArchive, []) := by
  unfold _decompress_adf_file
  rw [hfail]

theorem ceil_div_le_iff (L k n : Nat) (hk : 0 < k) :
    ceil_div L k ≤ n ↔ L ≤ n * k := by
  unfold ceil_div
  rw [← Nat.lt_succ_iff, Nat.div_lt_iff_lt_mul hk, Nat.succ_mul]
  omega

theorem ceil_div_pos (L k : Nat) (hL : 0 < L) (hk : 0 < k) :
    0 < ceil_div L k := by
  have h := ceil_div_le_iff L k 0 hk
  omega

theorem chunksOf_length (n : Nat) (l : List Animal) :
    (chunksOf n l).length = ceil_div l.length n := by
  simp [chunksOf]

theorem chunksOf_nil (n : Nat) (hn : 0 < n) : chunksOf n [] = [] := by
  have h : ceil_div 0 n = 0 := by
    unfold ceil_div
    exact Nat.div_eq_of_lt (by omega)
  simp [chunksOf, h]

theorem ceil_div_sub (L n : Nat) (hL : 0 < L) (hn : 0 < n) :
    ceil_div L n = ceil_div (L - n) n + 1 := by
  unfold ceil_div
  rcases Nat.lt_or_ge L n with h | h
  · have h1 : (L + n - 1) / n = 1 := by
      rw [show L + n - 1 = (L - 1) + n by omega, Nat.add_div_right _ hn,
        Nat.div_eq_of_lt (by omega)]
    have h2 : (L - n + n - 1) / n = 0 := by
      rw [show L - n + n - 1 = n - 1 by omega]
      exact Nat.div_eq_of_lt (by omega)
    omega
  · rw [show L + n - 1 = ((L - n) + n - 1) + n by omega, Nat.add_div_right _ hn]

theorem chunksOf_cons (n : Nat) (hn : 0 < n) (l : List Animal) (hl : l ≠ []) :
    chunksOf n l = l.take n :: chunksOf n (l.drop n) := by
  have hL : 0 < l.length := List.length_pos.mpr hl
  unfold chunksOf
  rw [List.length_drop, ceil_div_sub l.length n hL hn, List.range'_succ]
  simp only [List.map_cons, List.drop_zero]
  congr 1
  rw [show 0 + n = n + 0 by omega,
    ← List.map_add_range' n 0 (ceil_div (l.length - n) n) n, List.map_map]
  apply List.map_congr_left
  intro i _
  simp [List.drop_drop]

theorem chunksOf_flatten (n : Nat) (hn : 0 < n) (l : List Animal) :
    (chunksOf n l).flatten = l := by
  rcases eq_or_ne l [] with rfl | hl
  · rw [chunksOf_nil n hn]
    rfl
  · rw [chunksOf_cons n hn l hl, List.flatten_cons,
      chunksOf_flatten n hn (l.drop n), List.take_append_drop]
termination_by l.length
decreasing_by
  simp only [List.length_drop]
  have hL : 0 < l.length := List.length_pos.mpr hl
  omega

theorem chunksOf_mem (n : Nat) (hn : 0 < n) (l : List Animal) :
    ∀ c ∈ chunksOf n l, 1 ≤ c.length ∧ c.length ≤ n := by
  rcases eq_or_ne l [] with rfl | hl
  · rw [chunksOf_nil n hn]
    intro c hc
    cases hc
  · rw [chunksOf_cons n hn l hl]
    intro c hc
    have hL : 0 < l.length := List.length_pos.mpr hl
    rcases List.mem_cons.mp hc with rfl | hc2
    · constructor
      · simp only [List.length_take]
        omega
      · simp only [List.length_take]
        omega
    · exact chunksOf_mem n hn (l.drop n) c hc2
termination_by l.length
decreasing_by
  simp only [List.length_drop]
  have hL : 0 < l.length := List.length_pos.mpr hl
  omega

theorem chunksOf_getD (n : Nat) (hn : 0 < n) (l : List Animal) :
    ∀ i, i + 1 < (chunksOf n l).length →
      ((chunksOf n l).getD i []).length = n := by
  rcases eq_or_ne l [] with rfl | hl
  · rw [chunksOf_nil n hn]
    intro i hi
    simp at hi
  · rw [chunksOf_cons n hn l hl]
    intro i hi
    cases i with
    | zero =>
      simp only [List.length_cons] at hi
      have h2 : 0 < (chunksOf n (l.drop n)).length := by omega
      rw [chunksOf_length, List.length_drop] at h2
      have h3 := ceil_div_le_iff (l.length - n) n 0 hn
      simp only [List.getD_cons_zero, List.length_take]
      omega
    | succ j =>
      simp only [List.getD_cons_succ]
      apply chunksOf_getD n hn (l.drop n) j
      simp only [List.length_cons] at hi
      omega
termination_by l.length
decreasing_by
  simp only [List.length_drop]
  have hL : 0 < l.length := List.length_pos.mpr hl
  omega

theorem chunk_size_eq (animals : List Animal) (k : Nat)
    (ha : animals ≠ []) (hk : 0 < k) :
    chunk_size animals k = ceil_div animals.length k := by
  have hL : 0 < animals.length := List.length_pos.mpr ha
  unfold chunk_size
  split
  · rename_i h
    have h1 := ceil_div_le_iff animals.length k 1 hk
    have h2 := ceil_div_le_iff animals.length k 0 hk
    omega
  · rfl

/-- C6 counterexample: inserting 7 records with 3 eligible arrays yields
chunks of sizes 3, 3 and 1, which are not as even as possible (two chunks
differ in size by two), refuting the evenness part of the claim. -/
theorem c6_chunks_counterexample :
    (animal_chunks exAnimals7 3).map List.length = [3, 3, 1]
    ∧ ¬ asEvenAsPossible (animal_chunks exAnimals7 3) := by
  constructor
  · decide
  · decide

/-- C6 amended: the chunks partition the record list in order, there are
at most as many chunks as eligible arrays (arrays beyond the chunk count
receive none), every chunk is nonempty with at most
`ceil(len(records)/len(eligible_arrays))` records, and every chunk except
possibly the last has exactly that many (so the last may fall short by
more than one). -/
theorem c6_chunks_amended (animals : List Animal) (k : Nat)
    (ha : animals ≠ []) (hk : 0 < k) :
    (animal_chunks animals k).flatten = animals
    ∧ (animal_chunks animals k).length ≤ k
    ∧ (∀ c ∈ animal_chunks animals k,
        1 ≤ c.length ∧ c.length ≤ ceil_div animals.length k)
    ∧ (∀ i, i + 1 < (animal_chunks animals k).length →
        ((animal_chunks animals k).getD i []).length = ceil_div animals.length k) := by
  have hL : 0 < animals.length := List.length_pos.mpr ha
  have hcs : chunk_size animals k = ceil_div animals.length k :=
    chunk_size_eq animals k ha hk
  have hpos : 0 < ceil_div animals.length k := ceil_div_pos _ _ hL hk
  have hnpos : 0 < chunk_size animals k := by
    rw [hcs]
    exact hpos
  refine ⟨?_, ?_, ?_, ?_⟩
  · unfold animal_chunks
    exact chunksOf_flatten _ hnpos animals
  · unfold animal_chunks
    rw [chunksOf_length, hcs, ceil_div_le_iff _ _ _ hpos, Nat.mul_comm]
    exact (ceil_div_le_iff animals.length k (ceil_div animals.length k) hk).mp le_rfl
  · unfold animal_chunks
    intro c hc
    have h := chunksOf_mem _ hnpos animals c hc
    rw [hcs] at h
    exact h
  · unfold animal_chunks
    intro i hi
    rw [← hcs]
    exact chunksOf_getD _ hnpos animals i hi

theorem c6_chunks_amended_witness :
    (exAnimals7 ≠ [] ∧ 0 < 3)
    ∧ ((animal_chunks exAnimals7 3).flatten = exAnimals7
      ∧ (animal_chunks exAnimals7 3).length ≤ 3
      ∧ (∀ c ∈ animal_chunks exAnimals7 3,
          1 ≤ c.length ∧ c.length ≤ ceil_div exAnimals7.length 3)
      ∧ (∀ i, i + 1 < (animal_chunks exAnimals7 3).length →
          ((animal_chunks exAnimals7 3).getD i []).length = ceil_div exAnimals7.length 3)) :=
  ⟨⟨by decide, by decide⟩, c6_chunks_amended exAnimals7 3 (by decide) (by decide)⟩

theorem read_u32_take4 (l : List Nat) : read_u32 (l.take 4) = read_u32 l := by
  simp only [read_u32]
  rw [getD_take _ _ _ (by omega), getD_take _ _ _ (by omega),
    getD_take _ _ _ (by omega), getD_take _ _ _ (by omega)]

theorem read_u32_create_u32_int (z : Int) (h0 : 0 ≤ z) (h1 : z < 4294967296) :
    read_u32 (create_u32 z) = z.toNat := by
  simp only [read_u32, create_u32, u32bytes, List.getD_cons_zero, List.getD_cons_succ]
  omega

theorem drop_write_value (d v : List Nat) (o e : Nat)
    (h1 : o + v.length ≤ e) (h2 : e ≤ d.length) :
    (write_value d v o).drop e = d.drop e := by
  have hto : (d.take o).length = o := by
    simp only [List.length_take]
    omega
  unfold write_value
  rw [List.drop_append_eq_append_drop, List.drop_append_eq_append_drop, hto]
  rw [List.drop_eq_nil_of_le (show (d.take o).length ≤ e from by rw [hto]; omega)]
  rw [List.drop_eq_nil_of_le (show v.length ≤ e - o from by omega)]
  rw [List.drop_drop]
  simp only [List.nil_append]
  congr 1
  omega

theorem code_selection_succ (k : Nat) :
    code_selection (k + 1) = (k + 1) :: code_selection k := by
  unfold code_selection
  rw [List.range_succ_eq_map, List.map_cons, List.map_map]
  simp only [Nat.sub_zero]
  congr 1
  apply List.map_congr_left
  intro j _
  simp [Nat.succ_sub_succ]

/-- C5 counterexample: for an all-male array whose index list is
`[0, 1, 2, 3]` and a planned removal of 2, the code deletes the records at
list positions 2 and 1 (stored indices 2 and 1), not the two tail entries
(stored indices 3 and 2) the claim describes, and the resulting bodies
differ. -/
theorem c5_removal_counterexample :
    remove_loop exRemData exRemArray exRemArray.male_indices 2 ≠
      spec_tail_remove exRemData exRemArray exRemArray.male_indices 2 := by
  decide

/-- C5 amended: for each planned `(array, remove_count)` pair the records
deleted from the body are selected by consuming the array's category index
list at positions `remove_count, remove_count - 1, …, 1` in that order
(the entry at position 0 is never consumed — which is what keeps one
subject in place — rather than the list's tail entries); each deletion
removes the selected record's 32-byte range and decrements the array's
4-byte length field by one. -/
theorem c5_removal_amended (array : AdfArray) (remove_indices : List Nat) :
    (∀ (data : List Nat) (cnt : Nat),
      remove_loop data array remove_indices cnt =
        (code_selection cnt).foldl
          (fun d p => _remove_animal d array (remove_indices.getD p 0)) data)
    ∧ (∀ (d : List Nat) (i : Nat),
        array.header_length_offset + 4 ≤ d.length →
        array.array_org_start_offset + i * 32 + 32 ≤ d.length →
        (_remove_animal d array i).length + 32 = d.length)
    ∧ (∀ (d : List Nat) (i : Nat),
        array.header_length_offset + 4 ≤ array.array_org_start_offset + i * 32 →
        array.array_org_start_offset + i * 32 + 32 ≤ d.length →
        0 < read_u32 ((d.drop array.header_length_offset).take 4) →
        read_u32 ((d.drop array.header_length_offset).take 4) < 4294967296 →
        read_u32 (((_remove_animal d array i).drop array.header_length_offset).take 4) =
          read_u32 ((d.drop array.header_length_offset).take 4) - 1) := by
  refine ⟨?_, ?_, ?_⟩
  · intro data cnt
    induction cnt generalizing data with
    | zero => rfl
    | succ k ih =>
      rw [code_selection_succ, List.foldl_cons]
      exact ih _
  · intro d i hh hb
    unfold _remove_animal
    have hw : (write_value d
        (create_u32 ((read_u32 ((d.drop array.header_length_offset).take 4) : Int) - 1))
        array.header_length_offset).length = d.length := by
      apply write_value_length
      rw [create_u32_length]
      omega
    simp only [List.length_append, List.length_take, List.length_drop, hw]
    omega
  · intro d i hfield hrange hpos hlt
    have hw : (write_value d
        (create_u32 ((read_u32 ((d.drop array.header_length_offset).take 4) : Int) - 1))
        array.header_length_offset).length = d.length := by
      apply write_value_length
      rw [create_u32_length]
      omega
    have htl : ((write_value d
        (create_u32 ((read_u32 ((d.drop array.header_length_offset).take 4) : Int) - 1))
        array.header_length_offset).take
          (array.array_org_start_offset + i * 32)).length =
        array.array_org_start_offset + i * 32 := by
      simp only [List.length_take, hw]
      omega
    have hgd : ∀ j, j < 4 →
        ((_remove_animal d array i).drop array.header_length_offset).getD j 0 =
          (create_u32 ((read_u32 ((d.drop array.header_length_offset).take 4) : Int) - 1)).getD j 0 := by
      intro j hj
      rw [getD_drop]
      unfold _remove_animal
      rw [getD_append_lt _ _ _ (by rw [htl]; omega),
        getD_take _ _ _ (by omega),
        write_value_getD _ _ _ _ (by rw [create_u32_length]; omega),
        if_pos ⟨by omega, by rw [create_u32_length]; omega⟩]
      congr 1
      omega
    rw [read_u32_take4]
    set R := read_u32 ((d.drop array.header_length_offset).take 4) with hR
    simp only [read_u32]
    rw [hgd 0 (by omega), hgd 1 (by omega), hgd 2 (by omega), hgd 3 (by omega)]
    have hread := read_u32_create_u32_int ((R : Int) - 1) (by omega) (by omega)
    simp only [read_u32] at hread
    omega

set_option maxRecDepth 4000 in
theorem c5_removal_amended_witness :
    (exRemArray.header_length_offset + 4 ≤ exRemData.length
      ∧ exRemArray.array_org_start_offset + 2 * 32 + 32 ≤ exRemData.length
      ∧ exRemArray.header_length_offset + 4 ≤ exRemArray.array_org_start_offset + 2 * 32
      ∧ 0 < read_u32 ((exRemData.drop exRemArray.header_length_offset).take 4)
      ∧ read_u32 ((exRemData.drop exRemArray.header_length_offset).take 4) < 4294967296)
    ∧ (remove_loop exRemData exRemArray [0, 1, 2, 3] 2 =
        (code_selection 2).foldl
          (fun d p => _remove_animal d exRemArray ([0, 1, 2, 3].getD p 0)) exRemData)
    ∧ ((_remove_animal exRemData exRemArray 2).length + 32 = exRemData.length)
    ∧ (read_u32 (((_remove_animal exRemData exRemArray 2).drop
          exRemArray.header_length_offset).take 4) =
        read_u32 ((exRemData.drop exRemArray.header_length_offset).take 4) - 1) :=
  ⟨⟨by decide, by decide, by decide, by decide, by decide⟩,
    (c5_removal_amended exRemArray [0, 1, 2, 3]).1 exRemData 2,
    (c5_removal_amended exRemArray [0, 1, 2, 3]).2.1 exRemData 2 (by decide) (by decide),
    (c5_removal_amended exRemArray [0, 1, 2, 3]).2.2 exRemData 2 (by decide) (by decide)
      (by decide) (by decide)⟩

theorem plan_rc_le (g : Gender) (a : AdfArray) (left : Nat) :
    plan_rc g a left + 1 ≤ category_cnt g a ∨ plan_rc g a left = 0 ∨
      (plan_rc g a left = left ∧ plan_rc g a left + 1 ≤ category_cnt g a) := by
  unfold plan_rc category_cnt
  split_ifs <;> omega

theorem build_plan_entries (arrays : List AdfArray) (gender : Gender)
    (idxs : List Nat) (plan : List (Nat × Nat)) (left : Nat)
    (h0 : ∀ e ∈ plan, 1 ≤ e.1 ∧ e.1 + 1 ≤ category_cnt gender (arrays.getD e.2 default)) :
    ∀ e ∈ (build_plan arrays gender idxs plan left).1,
      1 ≤ e.1 ∧ e.1 + 1 ≤ category_cnt gender (arrays.getD e.2 default) := by
  induction idxs generalizing plan left with
  | nil =>
    intro e he
    exact h0 e he
  | cons i rest ih =>
    intro e he
    by_cases hl : left = 0
    · rw [build_plan, if_pos hl] at he
      exact h0 e he
    · rw [build_plan, if_neg hl] at he
      by_cases h1 : (arrays.getD i default).length > 1
      · rw [if_pos h1] at he
        by_cases h2 : plan_rc gender (arrays.getD i default) left > 0
        · rw [if_pos h2] at he
          refine ih _ _ ?_ e he
          intro e2 he2
          rcases List.mem_append.mp he2 with he3 | he3
          · exact h0 e2 he3
          · have he4 : e2 = (plan_rc gender (arrays.getD i default) left, i) :=
              List.mem_singleton.mp he3
            subst he4
            have hle : plan_rc gender (arrays.getD i default) left + 1 ≤
                category_cnt gender (arrays.getD i default) ∨
                plan_rc gender (arrays.getD i default) left = 0 ∨
                (plan_rc gender (arrays.getD i default) left = left ∧
                  plan_rc gender (arrays.getD i default) left + 1 ≤
                    category_cnt gender (arrays.getD i default)) :=
              plan_rc_le gender (arrays.getD i default) left
            constructor
            · exact h2
            · show plan_rc gender (arrays.getD i default) left + 1 ≤
                category_cnt gender (arrays.getD i default)
              omega
        · rw [if_neg h2] at he
          exact ih plan left h0 e he
      · rw [if_neg h1] at he
        exact ih plan left h0 e he

/-- C7: every entry of the removal plan contributes at least one and at
most category-count-minus-one removals, so a completed removal leaves at
least one subject of the selected category in every array the plan
touches. -/
theorem c7_never_drains (arrays : List AdfArray) (gender : Gender)
    (idx : List Nat) (cnt : Nat) :
    ∀ e ∈ (remove_plan arrays gender idx cnt).1,
      1 ≤ e.1 ∧ e.1 + 1 ≤ category_cnt gender (arrays.getD e.2 default) := by
  unfold remove_plan
  exact build_plan_entries arrays gender idx [] cnt (by intro e he; cases he)

theorem c7_never_drains_witness :
    ((2, 0) ∈ (remove_plan [exElig] Gender.male [0] 2).1)
    ∧ (1 ≤ (2, (0 : Nat)).1
      ∧ (2, (0 : Nat)).1 + 1 ≤ category_cnt Gender.male ([exElig].getD (2, (0 : Nat)).2 default)) :=
  ⟨by decide, c7_never_drains [exElig] Gender.male [0] 2 (2, 0) (by decide)⟩

theorem flatten_map_replicate (l : List (Nat × Nat)) :
    (l.map (fun e => List.replicate e.1 SpliceEvent.splice)).flatten =
      List.replicate (l.map Prod.fst).sum SpliceEvent.splice := by
  induction l with
  | nil => rfl
  | cons e t ih =>
    simp only [List.map_cons, List.flatten_cons, ih, List.sum_cons, List.replicate_add]

/-- C4: within one insert call and within one remove call, every
offset-cascade step comes before every byte-moving splice, and every
splice comes before the single final persist of the buffer: each trace is
exactly a block of cascades, then a block of splices, then the persist, so
no half-cascaded or half-spliced buffer is ever persisted. -/
theorem c4_phase_order (data data2 : List Nat) (profile profile2 : Profile)
    (arrays arrays2 : List AdfArray) (idx idx2 : List Nat)
    (animals : List Animal) (gender : Gender) (cnt : Nat)
    (ha : animals.length ≠ 0) (hc : cnt ≠ 0)
    (hplan : (remove_plan arrays2 gender idx2 cnt).2 = 0) :
    (∃ nc ns, (add_animals_core data profile arrays idx animals).events =
        List.replicate nc SpliceEvent.cascade ++
          (List.replicate ns SpliceEvent.splice ++ [SpliceEvent.persist]))
    ∧ (∃ nc ns, (remove_animals_core data2 profile2 arrays2 idx2 gender cnt).events =
        List.replicate nc SpliceEvent.cascade ++
          (List.replicate ns SpliceEvent.splice ++ [SpliceEvent.persist])) := by
  constructor
  · have hev : (add_animals_core data profile arrays idx animals).events =
        SpliceEvent.cascade ::
          (List.replicate (animal_chunks animals idx.length).flatten.length
              SpliceEvent.cascade ++
            (List.replicate (animal_chunks animals idx.length).flatten.length
                SpliceEvent.splice ++
              [SpliceEvent.persist])) := by
      unfold add_animals_core
      rw [if_neg ha]
    refine ⟨(animal_chunks animals idx.length).flatten.length + 1,
      (animal_chunks animals idx.length).flatten.length, ?_⟩
    rw [hev, List.replicate_succ, List.cons_append]
  · have hev : (remove_animals_core data2 profile2 arrays2 idx2 gender cnt).events =
        SpliceEvent.cascade ::
          (List.replicate (remove_plan arrays2 gender idx2 cnt).1.length
              SpliceEvent.cascade ++
            (((remove_plan arrays2 gender idx2 cnt).1.map
                (fun e => List.replicate e.1 SpliceEvent.splice)).flatten ++
              [SpliceEvent.persist])) := by
      unfold remove_animals_core
      rw [if_neg hc, if_neg (by omega)]
    refine ⟨(remove_plan arrays2 gender idx2 cnt).1.length + 1,
      ((remove_plan arrays2 gender idx2 cnt).1.map Prod.fst).sum, ?_⟩
    rw [hev, flatten_map_replicate, List.replicate_succ, List.cons_append]

theorem c4_phase_order_witness :
    ([exAnimal].length ≠ 0 ∧ (2 : Nat) ≠ 0
      ∧ (remove_plan [exElig] Gender.male [0] 2).2 = 0)
    ∧ ((∃ nc ns, (add_animals_core exData exProfile [exAfter] [0] [exAnimal]).events =
          List.replicate nc SpliceEvent.cascade ++
            (List.replicate ns SpliceEvent.splice ++ [SpliceEvent.persist]))
      ∧ (∃ nc ns, (remove_animals_core exData exProfile [exElig] [0] Gender.male 2).events =
          List.replicate nc SpliceEvent.cascade ++
            (List.replicate ns SpliceEvent.splice ++ [SpliceEvent.persist]))) :=
  ⟨⟨by decide, by decide, by decide⟩,
    c4_phase_order exData exData exProfile exProfile [exAfter] [exElig] [0] [0]
      [exAnimal] Gender.male 2 (by decide) (by decide) (by decide)⟩

/-- C8: when the accumulated plan falls short of the request, the remove
operation fails with the insufficient-subjects error before any mutation:
the body and the descriptors come back byte-for-byte untouched and the
trace is empty — no splice happened and nothing was persisted or written. -/
theorem c8_insufficient_atomic (data : List Nat) (profile : Profile)
    (arrays : List AdfArray) (idx : List Nat) (gender : Gender) (cnt : Nat)
    (hc : cnt ≠ 0)
    (hshort : 0 < (remove_plan arrays gender idx cnt).2) :
    remove_animals_core data profile arrays idx gender cnt =
      ⟨data, arrays, [], some AdfError.insufficientSubjects⟩ := by
  unfold remove_animals_core
  rw [if_neg hc, if_pos hshort]

theorem c8_insufficient_atomic_witness :
    ((2 : Nat) ≠ 0 ∧ 0 < (remove_plan [exShort] Gender.male [0] 2).2)
    ∧ remove_animals_core exData exProfile [exShort] [0] Gender.male 2 =
        ⟨exData, [exShort], [], some AdfError.insufficientSubjects⟩ :=
  ⟨⟨by decide, by decide⟩,
    c8_insufficient_atomic exData exProfile [exShort] [0] Gender.male 2
      (by decide) (by decide)⟩

/-- C10: the insertion loop splices every record of an eligible array's
chunk into the body at the array's single pre-recorded original end
boundary, so after the loop the chunk's records sit there in reverse of
their input order, with the bytes beyond the boundary untouched behind
them. -/
theorem c10_insert_reversed (a : AdfArray)
    (hh : a.header_length_offset + 4 ≤ a.array_org_end_offset) :
    ∀ (chunk : List Animal) (d : List Nat), a.array_org_end_offset ≤ d.length →
      (chunk.foldl (fun dd al => _insert_animal dd al a) d).drop a.array_org_end_offset =
        (chunk.reverse.map (fun al => al.to_bytes)).flatten ++
          d.drop a.array_org_end_offset := by
  intro chunk
  induction chunk with
  | nil =>
    intro d _
    simp
  | cons al rest ih =>
    intro d hd
    have hw : (write_value d
        (create_u32 ((read_u32 ((d.drop a.header_length_offset).take 4) : Int) + 1))
        a.header_length_offset).length = d.length := by
      apply write_value_length
      rw [create_u32_length]
      omega
    have htk : ((write_value d
        (create_u32 ((read_u32 ((d.drop a.header_length_offset).take 4) : Int) + 1))
        a.header_length_offset).take a.array_org_end_offset).length =
        a.array_org_end_offset := by
      simp only [List.length_take, hw]
      omega
    have hdrop : (_insert_animal d al a).drop a.array_org_end_offset =
        al.to_bytes ++ d.drop a.array_org_end_offset := by
      unfold _insert_animal
      rw [List.drop_left' htk,
        drop_write_value _ _ _ _ (by rw [create_u32_length]; omega) hd]
    have hlen : a.array_org_end_offset ≤ (_insert_animal d al a).length := by
      unfold _insert_animal
      simp only [List.length_append, List.length_take, List.length_drop, hw]
      omega
    rw [List.foldl_cons, ih (_insert_animal d al a) hlen, hdrop]
    simp [List.flatten_append, List.append_assoc]

theorem c10_insert_reversed_witness :
    (exInsArray.header_length_offset + 4 ≤ exInsArray.array_org_end_offset
      ∧ exInsArray.array_org_end_offset ≤ exInsData.length)
    ∧ (exChunk.foldl (fun dd al => _insert_animal dd al exInsArray) exInsData).drop
          exInsArray.array_org_end_offset =
        (exChunk.reverse.map (fun al => al.to_bytes)).flatten ++
          exInsData.drop exInsArray.array_org_end_offset :=
  ⟨⟨by decide, by decide⟩,
    c10_insert_reversed exInsArray (by decide) exChunk exInsData (by decide)⟩

theorem c9_corrupt_archive_witness :
    ((fun _ : List Nat => (none : Option (List Nat)))
        ((List.replicate 40 7).drop 32) = none)
    ∧ _decompress_adf_file (List.replicate 40 7)
        (fun _ => (none : Option (List Nat))) =
      (Except.error AdfError.corruptArchive, []) :=
  ⟨rfl, c9_corrupt_archive (List.replicate 40 7) (fun _ => none) rfl⟩

end Apc
